import Mathlib

/-!
Verification development for the HTTP serving layer of a video recorder
(`src/web.rs`).  The Rust code is shallowly embedded: the `s` query
parameter grammar (`Segments::parse` together with the anchored regular
expression `^(\d+)(-\d+)?(@\d+)?(?:\.(\d+)?-(\d+)?)?$`), the path router
(`decode_path`), the capacity estimate and the recording scan of
`ServiceInner::stream_view_mp4`.  Machine integers are modelled as `Int`
with explicit wrapping where the Rust release build wraps.
-/

namespace MoonfireWeb

/-! ## Character and digit-string utilities -/

/-- Value of the decimal digits of `l`, accumulated left to right exactly as
a decimal string parser does. -/
def digitsVal (acc : Nat) : List Char → Nat
  | [] => acc
  | c :: rest => digitsVal (acc * 10 + (c.toNat - 48)) rest

/-- Numeric value of an all-digit string. -/
def digitsToNat (l : List Char) : Nat := digitsVal 0 l

/-- Two to the 31st, the count of non-negative `i32` values. -/
def i32modulus : Int := 2147483648

/-- Largest `i32`. -/
def i32max : Int := 2147483647

/-- Largest `i64`. -/
def i64max : Int := 9223372036854775807

/-- Largest `u32`. -/
def u32max : Nat := 4294967295

/-- Wrapping 32-bit signed interpretation of an integer, as produced by
overflowing `i32` arithmetic in a Rust release build. -/
def wrap32 (x : Int) : Int := (x + 2147483648) % 4294967296 - 2147483648

/-- Wrapping 64-bit signed interpretation of an integer, as produced by
overflowing `i64` arithmetic in a Rust release build. -/
def wrap64 (x : Int) : Int :=
  (x + 9223372036854775808) % 18446744073709551616 - 9223372036854775808

/-- Rust `i32::from_str` on a string of decimal digits: the value when it
fits in an `i32`, otherwise an error. -/
def i32OfDigits (l : List Char) : Option Int :=
  if (digitsToNat l : Int) ≤ i32max then some (digitsToNat l : Int) else none

/-- Rust `u32::from_str` on a string of decimal digits. -/
def u32OfDigits (l : List Char) : Option Nat :=
  if digitsToNat l ≤ u32max then some (digitsToNat l) else none

/-- Rust `i64::from_str` on a string of decimal digits. -/
def i64OfDigits (l : List Char) : Option Int :=
  if (digitsToNat l : Int) ≤ i64max then some (digitsToNat l : Int) else none

/-! ## The `s` parameter grammar

The anchored regular expression
`^(\d+)(-\d+)?(@\d+)?(?:\.(\d+)?-(\d+)?)?$` is deterministic: every
digit group is maximal and each optional group is introduced by a
distinct delimiter character, so a single forward scan computes exactly
the match and captures of the regex engine. -/

/-- The five capture groups of `SEGMENTS_RE`. -/
structure Caps where
  g1 : List Char
  g2 : Option (List Char)
  g3 : Option (List Char)
  g4 : Option (List Char)
  g5 : Option (List Char)
deriving DecidableEq, Repr

/-- Match one-or-more digits (`\d+`), returning the digits and the rest. -/
def pDigits1 (l : List Char) : Option (List Char × List Char) :=
  if l.takeWhile Char.isDigit = [] then none
  else some (l.takeWhile Char.isDigit, l.dropWhile Char.isDigit)

/-- Match an optional group `(c\d+)?` introduced by the delimiter `c`:
on failure the group is skipped and the input is left untouched. -/
def pOptTag (c : Char) (l : List Char) : Option (List Char) × List Char :=
  match l with
  | c2 :: rest =>
    if c2 = c then
      match pDigits1 rest with
      | some (d, r) => (some d, r)
      | none => (none, l)
    else (none, l)
  | [] => (none, l)

/-- Match the optional trailing clause `(?:\.(\d+)?-(\d+)?)?$`: either the
input is exhausted, or it is a dot, optional digits, a dash, optional
digits, and then the end of the input. -/
def pTimes (l : List Char) : Option (Option (List Char) × Option (List Char)) :=
  match l with
  | [] => some (none, none)
  | c :: rest =>
    if c = '.' then
      match rest.dropWhile Char.isDigit with
      | c2 :: rest2 =>
        if c2 = '-' then
          if rest2.dropWhile Char.isDigit = [] then
            some ((if rest.takeWhile Char.isDigit = [] then none
                   else some (rest.takeWhile Char.isDigit)),
                  (if rest2.takeWhile Char.isDigit = [] then none
                   else some (rest2.takeWhile Char.isDigit)))
          else none
        else none
      | [] => none
    else none

/-- Captures of `SEGMENTS_RE` on `l`, or `none` when the regex does not
match the whole input. -/
def segmentsCaptures (l : List Char) : Option Caps :=
  match pDigits1 l with
  | none => none
  | some (g1, r1) =>
    let p2 := pOptTag '-' r1
    let p3 := pOptTag '@' p2.2
    match pTimes p3.2 with
    | none => none
    | some (g4, g5) => some ⟨g1, p2.1, p3.1, g4, g5⟩

/-- The parsed `s` query parameter of `view.mp4`: recording id range
(half open, as `ids: Range<i32>` in the source), optional open id,
relative start time and optional relative end time. -/
structure Segments where
  ids_start : Int
  ids_end : Int
  open_id : Option Nat
  start_time : Int
  end_time : Option Int
deriving DecidableEq, Repr

/-- The END_ID clause: digits when the `-END_ID` group matched, otherwise
START_ID itself. -/
def parseEnd0 (g2 : Option (List Char)) (ids_start : Int) : Option Int :=
  match g2 with
  | some m => i32OfDigits m
  | none => some ids_start

/-- The `@OPEN_ID` clause. -/
def parseOpen (g3 : Option (List Char)) : Option (Option Nat) :=
  match g3 with
  | some m =>
    match u32OfDigits m with
    | some v => some (some v)
    | none => none
  | none => some none

/-- The REL_START clause, defaulting to 0. -/
def parseStart (g4 : Option (List Char)) : Option Int :=
  match g4 with
  | some m => i64OfDigits m
  | none => some 0

/-- The REL_END clause, which must exceed the effective start time. -/
def parseEndTime (g5 : Option (List Char)) (start_time : Int) : Option (Option Int) :=
  match g5 with
  | some m =>
    match i64OfDigits m with
    | some e => if e ≤ start_time then none else some (some e)
    | none => none
  | none => some none

/-- `Segments::parse` on a list of characters: regex match, integer
conversions, the `+ 1` on END_ID (which wraps in `i32` arithmetic), and
the ordering checks, in source order. -/
def parseList (l : List Char) : Option Segments :=
  match segmentsCaptures l with
  | none => none
  | some caps =>
    match i32OfDigits caps.g1 with
    | none => none
    | some ids_start =>
      match parseEnd0 caps.g2 ids_start with
      | none => none
      | some e0 =>
        match parseOpen caps.g3 with
        | none => none
        | some open_id =>
          if ids_start < 0 ∨ wrap32 (e0 + 1) ≤ ids_start then none
          else
            match parseStart caps.g4 with
            | none => none
            | some start_time =>
              if start_time < 0 then none
              else
                match parseEndTime caps.g5 start_time with
                | none => none
                | some end_time =>
                  some ⟨ids_start, wrap32 (e0 + 1), open_id, start_time, end_time⟩

/-- `Segments::parse`. -/
def Segments.parse (input : String) : Option Segments := parseList input.toList

/-! ## The recording scan of `stream_view_mp4`

The callback passed to `db.list_recordings_by_id` and the checks that
follow it are embedded as a fold over an explicit list of recording
rows, with the per-request state threaded through. -/

/-- The fields of a recording row consumed by the scan: sequence number
(`r.id.recording()`), crash epoch (`r.open_id`) and duration
(`r.duration_90k as i64`). -/
structure Row where
  recording_id : Int
  open_id : Nat
  duration_90k : Int
deriving DecidableEq, Repr

/-- The mutable state of the scan: previous sequence number, cumulative
offset, and the list of `(recording id, clipped start, clipped end)`
triples handed to `builder.append`. -/
structure ScanState where
  prev : Option Int
  cur_off : Int
  builder : List (Int × Int × Int)
deriving DecidableEq, Repr

/-- The errors produced with `bail!` by the scan, carrying the ids the
formatted messages name. -/
inductive StitchError where
  | openIdMismatch (id : Int) (actual requested : Nat)
  | noSuchRecording (stream_id : Int) (id : Int)
  | endBeyond (e : Int)
deriving DecidableEq, Repr

/-- The effective relative end time of a selection:
`s.end_time.unwrap_or(i64::max_value())`. -/
def effectiveEnd (s : Segments) : Int :=
  match s.end_time with
  | some e => e
  | none => i64max

/-- The clipping and append logic of the callback: the inclusion test
`s.start_time <= cur_off + d && cur_off < end_time`, the clipped range
`max(0, s.start_time - cur_off) .. min(d, end_time - cur_off)`, and the
unconditional advance of the cumulative offset. -/
def stitchStepAppend (s : Segments) (st : ScanState) (r : Row) :
    Except StitchError ScanState :=
  if s.start_time ≤ st.cur_off + r.duration_90k ∧ st.cur_off < effectiveEnd s then
    .ok ⟨some r.recording_id, st.cur_off + r.duration_90k,
      st.builder ++
        [(r.recording_id, max 0 (s.start_time - st.cur_off),
          min r.duration_90k (effectiveEnd s - st.cur_off))]⟩
  else .ok ⟨some r.recording_id, st.cur_off + r.duration_90k, st.builder⟩

/-- The sequence number the contiguity check demands of the next row. -/
def nextExpected (s : Segments) (prev : Option Int) : Int :=
  match prev with
  | none => s.ids_start
  | some p => p + 1

/-- The contiguity check of the callback: the first row must carry the
start id of the selection, every later row must be the successor of the
previous one. -/
def stitchStepContig (s : Segments) (stream_id : Int) (st : ScanState) (r : Row) :
    Except StitchError ScanState :=
  match st.prev with
  | none =>
    if r.recording_id = s.ids_start then stitchStepAppend s st r
    else .error (.noSuchRecording stream_id s.ids_start)
  | some id =>
    if r.recording_id = id + 1 then stitchStepAppend s st r
    else .error (.noSuchRecording stream_id (id + 1))

/-- One invocation of the callback on one row: open-id check, then
contiguity check, then clipping and append. -/
def stitchStep (s : Segments) (stream_id : Int) (st : ScanState) (r : Row) :
    Except StitchError ScanState :=
  match s.open_id with
  | some o =>
    if r.open_id ≠ o then .error (.openIdMismatch r.recording_id r.open_id o)
    else stitchStepContig s stream_id st r
  | none => stitchStepContig s stream_id st r

/-- The whole scan: the callback applied to each row in order, aborting
on the first error. -/
def scanRows (s : Segments) (stream_id : Int) : List Row → ScanState →
    Except StitchError ScanState
  | [], st => .ok st
  | r :: rest, st =>
    match stitchStep s stream_id st r with
    | .error e => .error e
    | .ok st2 => scanRows s stream_id rest st2

/-- The scan followed by the two post-scan checks of `stream_view_mp4`:
the tail gap check on `prev` and the check that an explicit end time
does not exceed the cumulative duration. -/
def stitch (s : Segments) (stream_id : Int) (rows : List Row) :
    Except StitchError ScanState :=
  match scanRows s stream_id rows ⟨none, 0, []⟩ with
  | .error e => .error e
  | .ok st =>
    match st.prev with
    | some id =>
      if s.ids_end = id + 1 then
        match s.end_time with
        | some e => if e > st.cur_off then .error (.endBeyond e) else .ok st
        | none => .ok st
      else .error (.noSuchRecording stream_id (s.ids_end - 1))
    | none => .error (.noSuchRecording stream_id s.ids_start)

/-- The consecutive run of `n` integers starting at `a`, the id sequence
a gap-free scan must produce. -/
def countFrom (a : Int) : Nat → List Int
  | 0 => []
  | n + 1 => a :: countFrom (a + 1) n

/-- The id sequence a gap-free scan of the half-open range `[a, b)` must
produce. -/
def idRange (a b : Int) : List Int := countFrom a (b - a).toNat

/-! ## The capacity estimate of `stream_view_mp4` -/

/-- Modelled from the spec: the nominal recording duration
(`recording::DESIRED_RECORDING_DURATION`), a positive constant declared
in the `db` crate of this repository, 60 seconds in 90 kHz units. -/
def DESIRED_RECORDING_DURATION : Int := 5400000

/-- Rust `as usize` on a 64-bit platform: two-complement reinterpretation
of a signed value as an unsigned one. -/
def usizeOfInt (x : Int) : Nat := (x % 18446744073709551616).toNat

/-- The `est_segments` computation performed before the scan:
`(s.ids.end - s.ids.start) as usize`, capped when an end time is given by
`(end - start + DESIRED_RECORDING_DURATION - 1) / DESIRED_RECORDING_DURATION + 2`,
with `i32` and `i64` arithmetic wrapping and `/` truncating as in Rust. -/
def est_segments (s : Segments) : Nat :=
  let est0 := usizeOfInt (wrap32 (s.ids_end - s.ids_start))
  match s.end_time with
  | none => est0
  | some e =>
    let ceil_durations :=
      (wrap64 (e - s.start_time + DESIRED_RECORDING_DURATION - 1)).tdiv
        DESIRED_RECORDING_DURATION
    min est0 (usizeOfInt (ceil_durations + 2))

/-! ## The path router `decode_path`

Paths are modelled as lists of characters; all characters the router
distinguishes are ASCII, so character counts agree with the byte counts
the source computes.  Identifier parsing (`Uuid::parse_str`, an external
crate) is an explicit function parameter, and `db::StreamType::parse`
(repository code outside this file) is modelled from the spec. -/

/-- Modelled from the spec: the enumerated stream kind tag
(`db::StreamType`), for example main or sub. -/
inductive StreamType where
  | main
  | sub
deriving DecidableEq, Repr

/-- Modelled from the spec: `db::StreamType::parse`, reading the stream
kind from its short string token. -/
def StreamType.parse (l : List Char) : Option StreamType :=
  if l = "main".toList then some .main
  else if l = "sub".toList then some .sub
  else none

/-- Value of one hexadecimal digit. -/
def hexDigitVal (c : Char) : Option Nat :=
  if '0' ≤ c ∧ c ≤ '9' then some (c.toNat - 48)
  else if 'a' ≤ c ∧ c ≤ 'f' then some (c.toNat - 87)
  else if 'A' ≤ c ∧ c ≤ 'F' then some (c.toNat - 55)
  else none

/-- Modelled from the spec: `strutil::dehex` (repository code outside
this file), decoding a string of hexadecimal characters into bytes, one
byte per pair of characters, failing on any non-hexadecimal character. -/
def dehex : List Char → Option (List Nat)
  | [] => some []
  | [_] => none
  | c1 :: c2 :: rest =>
    match hexDigitVal c1, hexDigitVal c2, dehex rest with
    | some hi, some lo, some bs => some ((hi * 16 + lo) :: bs)
    | _, _, _ => none

/-- The route classification (`enum Path` in the source), generic over
the representation `α` of parsed camera identifiers. -/
inductive RoutePath (α : Type) where
  | TopLevel
  | InitSegment (sha1 : List Nat)
  | Camera (uuid : α)
  | StreamRecordings (uuid : α) (t : StreamType)
  | StreamViewMp4 (uuid : α) (t : StreamType)
  | StreamViewMp4Segment (uuid : α) (t : StreamType)
  | Static
  | NotFound
deriving DecidableEq, Repr

/-- Whether a route is one of the camera or stream routes, all of which
carry a parsed camera identifier. -/
def RoutePath.isCameraRoute {α : Type} : RoutePath α → Bool
  | .Camera _ => true
  | .StreamRecordings _ _ => true
  | .StreamViewMp4 _ _ => true
  | .StreamViewMp4Segment _ _ => true
  | _ => false

/-- Rust `str::find` specialised to the slash character: index of the
first slash, if any. -/
def findSlash : List Char → Option Nat
  | [] => none
  | c :: rest => if c = '/' then some 0 else (findSlash rest).map (· + 1)

/-- The router `decode_path`, parameterised by the identifier parser
`uuidParse` standing for the external `Uuid::parse_str`. -/
def decode_path {α : Type} (uuidParse : List Char → Option α)
    (path : List Char) : RoutePath α :=
  if ¬ ("/api/".toList.isPrefixOf path) then .Static
  else
    let p1 := path.drop 4
    if p1 = "/".toList then .TopLevel
    else if "/init/".toList.isPrefixOf p1 then
      if p1.length ≠ 50 ∨ ¬ (".mp4".toList.isSuffixOf p1) then .NotFound
      else
        match dehex ((p1.drop 6).take 40) with
        | some sha1 => .InitSegment sha1
        | none => .NotFound
    else if ¬ ("/cameras/".toList.isPrefixOf p1) then .NotFound
    else
      let p2 := p1.drop 9
      match findSlash p2 with
      | none => .NotFound
      | some slash =>
        let uuid := p2.take slash
        let p3 := p2.drop (slash + 1)
        match uuidParse uuid with
        | none => .NotFound
        | some u =>
          if p3 = [] then .Camera u
          else
            match findSlash p3 with
            | none => .NotFound
            | some slash2 =>
              match StreamType.parse (p3.take slash2) with
              | none => .NotFound
              | some t =>
                if p3.drop slash2 = "/recordings".toList then .StreamRecordings u t
                else if p3.drop slash2 = "/view.mp4".toList then .StreamViewMp4 u t
                else if p3.drop slash2 = "/view.m4s".toList then .StreamViewMp4Segment u t
                else .NotFound

/-! ## Lemmas about the integer conversions -/

theorem i32OfDigits_eq {l : List Char} {v : Int} (h : i32OfDigits l = some v) :
    v = (digitsToNat l : Int) ∧ 0 ≤ v ∧ v ≤ i32max := by
  unfold i32OfDigits at h
  split at h
  · cases h
    exact ⟨rfl, Int.ofNat_nonneg _, by assumption⟩
  · cases h

theorem i64OfDigits_eq {l : List Char} {v : Int} (h : i64OfDigits l = some v) :
    v = (digitsToNat l : Int) ∧ 0 ≤ v ∧ v ≤ i64max := by
  unfold i64OfDigits at h
  split at h
  · cases h
    exact ⟨rfl, Int.ofNat_nonneg _, by assumption⟩
  · cases h

theorem wrap32_lt (x : Int) : -2147483648 ≤ wrap32 x ∧ wrap32 x < 2147483648 := by
  unfold wrap32
  have h1 := Int.emod_nonneg (x + 2147483648) (by norm_num : (4294967296 : Int) ≠ 0)
  have h2 := Int.emod_lt_of_pos (x + 2147483648) (by norm_num : (0 : Int) < 4294967296)
  omega

theorem wrap32_eq_self {x : Int} (h1 : -2147483648 ≤ x) (h2 : x < 2147483648) :
    wrap32 x = x := by
  unfold wrap32
  have : (x + 2147483648) % 4294967296 = x + 2147483648 :=
    Int.emod_eq_of_lt (by omega) (by omega)
  omega

theorem parseStart_eq {g4 : Option (List Char)} {v : Int}
    (h : parseStart g4 = some v) : 0 ≤ v ∧ v ≤ i64max := by
  unfold parseStart at h
  match g4, h with
  | some m, h => exact ⟨(i64OfDigits_eq h).2.1, (i64OfDigits_eq h).2.2⟩
  | none, h => cases h; exact ⟨le_refl 0, by norm_num [i64max]⟩

theorem parseEndTime_eq {g5 : Option (List Char)} {st : Int} {et : Option Int}
    (h : parseEndTime g5 st = some et) :
    ∀ e, et = some e → st < e ∧ e ≤ i64max := by
  intro e he
  subst he
  cases g5 with
  | none => simp [parseEndTime] at h
  | some m =>
    simp only [parseEndTime] at h
    rcases h5 : i64OfDigits m with _ | v
    · simp [h5] at h
    simp only [h5] at h
    split at h
    · cases h
    · injection h with h
      injection h with h
      subst h
      exact ⟨by omega, (i64OfDigits_eq h5).2.2⟩

/-! ## The post-parse invariant -/

/-- Every successful parse satisfies the selection invariant together
with the `i32`/`i64` range bounds of the parsed fields. -/
theorem parse_inv {l : List Char} {s : Segments} (h : parseList l = some s) :
    0 ≤ s.ids_start ∧ s.ids_start < s.ids_end ∧ s.ids_end ≤ i32max ∧
    0 ≤ s.start_time ∧ s.start_time ≤ i64max ∧
    ∀ e, s.end_time = some e → s.start_time < e ∧ e ≤ i64max := by
  unfold parseList at h
  rcases hcap : segmentsCaptures l with _ | caps
  · simp [hcap] at h
  simp only [hcap] at h
  rcases h1 : i32OfDigits caps.g1 with _ | ids_start
  · simp [h1] at h
  simp only [h1] at h
  rcases h2 : parseEnd0 caps.g2 ids_start with _ | e0
  · simp [h2] at h
  simp only [h2] at h
  rcases h3 : parseOpen caps.g3 with _ | open_id
  · simp [h3] at h
  simp only [h3] at h
  by_cases hr : ids_start < 0 ∨ wrap32 (e0 + 1) ≤ ids_start
  · rw [if_pos hr] at h; cases h
  rw [if_neg hr] at h
  rcases h4 : parseStart caps.g4 with _ | start_time
  · simp [h4] at h
  simp only [h4] at h
  by_cases hs : start_time < 0
  · rw [if_pos hs] at h; cases h
  rw [if_neg hs] at h
  rcases h5 : parseEndTime caps.g5 start_time with _ | end_time
  · simp [h5] at h
  simp only [h5] at h
  cases h
  dsimp only
  push_neg at hr
  refine ⟨hr.1, hr.2, ?_, by omega, (parseStart_eq h4).2, parseEndTime_eq h5⟩
  have := wrap32_lt (e0 + 1)
  simp only [i32max]
  omega

/-- C5: for every input string on which `Segments::parse` succeeds, the
returned selection has a non-empty id range with non-negative start, a
non-negative start time, and an end time that strictly exceeds the start
time whenever it is present. -/
theorem parse_invariants_hold (input : String) (s : Segments)
    (h : Segments.parse input = some s) :
    0 ≤ s.ids_start ∧ s.ids_start < s.ids_end ∧ 0 ≤ s.start_time ∧
    ∀ e, s.end_time = some e → s.start_time < e := by
  have hp : parseList input.toList = some s := h
  have hi := parse_inv hp
  exact ⟨hi.1, hi.2.1, hi.2.2.2.1, fun e he => (hi.2.2.2.2.2 e he).1⟩

theorem parse_invariants_hold_witness :
    0 ≤ (Segments.mk 1 2 none 0 none).ids_start ∧
    (Segments.mk 1 2 none 0 none).ids_start < (Segments.mk 1 2 none 0 none).ids_end ∧
    0 ≤ (Segments.mk 1 2 none 0 none).start_time ∧
    ∀ e, (Segments.mk 1 2 none 0 none).end_time = some e →
      (Segments.mk 1 2 none 0 none).start_time < e :=
  parse_invariants_hold "1" (Segments.mk 1 2 none 0 none) (by decide)

/-- C3: `Segments::parse` returns exactly the structured value the spec
lists for each of the six literal inputs. -/
theorem parse_literal_cases :
    Segments.parse "1" = some ⟨1, 2, none, 0, none⟩ ∧
    Segments.parse "1-5" = some ⟨1, 6, none, 0, none⟩ ∧
    Segments.parse "1@42" = some ⟨1, 2, some 42, 0, none⟩ ∧
    Segments.parse "1.26-" = some ⟨1, 2, none, 26, none⟩ ∧
    Segments.parse "1.-42" = some ⟨1, 2, none, 0, some 42⟩ ∧
    Segments.parse "1-5.26-42" = some ⟨1, 6, none, 26, some 42⟩ := by
  refine ⟨?_, ?_, ?_, ?_, ?_, ?_⟩ <;> decide

/-! ## Structure of the capture groups -/

theorem pDigits1_eq {l d r : List Char} (h : pDigits1 l = some (d, r)) :
    l = d ++ r ∧ d ≠ [] ∧ ∀ c ∈ d, c.isDigit := by
  unfold pDigits1 at h
  split at h
  · cases h
  · injection h with h
    obtain ⟨hd, hr⟩ := Prod.mk.injEq .. ▸ h
    subst hd
    subst hr
    exact ⟨(List.takeWhile_append_dropWhile _ _).symm, by assumption,
      fun c hc => List.mem_takeWhile_imp hc⟩

theorem pOptTag_eq (ch : Char) (l : List Char) :
    ((pOptTag ch l).1 = none ∧ (pOptTag ch l).2 = l) ∨
    (∃ d, (pOptTag ch l).1 = some d ∧ l = ch :: (d ++ (pOptTag ch l).2) ∧
      d ≠ [] ∧ ∀ c ∈ d, c.isDigit) := by
  rcases l with _ | ⟨c2, rest⟩
  · exact Or.inl ⟨rfl, rfl⟩
  unfold pOptTag
  dsimp only
  by_cases hc : c2 = ch
  · rw [if_pos hc]
    rcases hp : pDigits1 rest with _ | ⟨d, r⟩
    · simp only [hp]
      exact Or.inl ⟨by trivial, by trivial⟩
    · simp only [hp]
      obtain ⟨he, hne, hd⟩ := pDigits1_eq hp
      refine Or.inr ⟨d, rfl, ?_, hne, hd⟩
      rw [hc, he]
  · rw [if_neg hc]
    exact Or.inl ⟨rfl, rfl⟩

theorem mem_after_optTag {ch : Char} {l r : List Char} {g : Option (List Char)}
    (hp : pOptTag ch l = (g, r)) {c : Char} (hc : c ∈ l) :
    c = ch ∨ c.isDigit ∨ c ∈ r := by
  have he := pOptTag_eq ch l
  rw [hp] at he
  dsimp only at he
  rcases he with ⟨_, h2⟩ | ⟨d, _, h2, _, hd⟩
  · exact Or.inr (Or.inr (h2 ▸ hc))
  · rw [h2] at hc
    rcases List.mem_cons.mp hc with rfl | hc
    · exact Or.inl rfl
    rcases List.mem_append.mp hc with hcd | hcr
    · exact Or.inr (Or.inl (hd c hcd))
    · exact Or.inr (Or.inr hcr)

theorem pTimes_chars {l : List Char} {x : Option (List Char) × Option (List Char)}
    (h : pTimes l = some x) : ∀ c ∈ l, c.isDigit ∨ c = '.' ∨ c = '-' := by
  rcases l with _ | ⟨c0, rest⟩
  · intro c hc
    cases hc
  unfold pTimes at h
  dsimp only at h
  by_cases h0 : c0 = '.'
  · rw [if_pos h0] at h
    rcases hdw : rest.dropWhile Char.isDigit with _ | ⟨c2, rest2⟩ <;>
      simp only [hdw] at h
    · cases h
    by_cases h2 : c2 = '-'
    · rw [if_pos h2] at h
      by_cases h3 : rest2.dropWhile Char.isDigit = []
      · intro c hc
        rcases List.mem_cons.mp hc with rfl | hc
        · exact Or.inr (Or.inl h0)
        have hrest : rest = rest.takeWhile Char.isDigit ++ rest.dropWhile Char.isDigit :=
          (List.takeWhile_append_dropWhile _ _).symm
        rw [hrest, hdw] at hc
        rcases List.mem_append.mp hc with hts | hc
        · exact Or.inl (List.mem_takeWhile_imp hts)
        rcases List.mem_cons.mp hc with rfl | hc
        · exact Or.inr (Or.inr h2)
        have hrest2 : rest2 = rest2.takeWhile Char.isDigit ++ rest2.dropWhile Char.isDigit :=
          (List.takeWhile_append_dropWhile _ _).symm
        rw [hrest2, h3, List.append_nil] at hc
        exact Or.inl (List.mem_takeWhile_imp hc)
      · rw [if_neg h3] at h
        cases h
    · rw [if_neg h2] at h
      cases h
  · rw [if_neg h0] at h
    cases h

/-- A successful regex match constrains every character of the input to
be a digit or one of the three delimiters. -/
theorem captures_chars {l : List Char} {caps : Caps}
    (h : segmentsCaptures l = some caps) :
    ∀ c ∈ l, c.isDigit ∨ c = '-' ∨ c = '@' ∨ c = '.' := by
  unfold segmentsCaptures at h
  rcases hp1 : pDigits1 l with _ | ⟨g1, r1⟩
  · simp [hp1] at h
  simp only [hp1] at h
  rcases hp2 : pOptTag '-' r1 with ⟨g2, r2⟩
  simp only [hp2] at h
  rcases hp3 : pOptTag '@' r2 with ⟨g3, r3⟩
  simp only [hp3] at h
  rcases hpt : pTimes r3 with _ | ⟨g4, g5⟩
  · simp [hpt] at h
  intro c hc
  obtain ⟨he1, _, hd1⟩ := pDigits1_eq hp1
  rw [he1] at hc
  rcases List.mem_append.mp hc with hc | hc
  · exact Or.inl (hd1 c hc)
  rcases mem_after_optTag hp2 hc with rfl | hdig | hc2
  · exact Or.inr (Or.inl rfl)
  · exact Or.inl hdig
  rcases mem_after_optTag hp3 hc2 with rfl | hdig | hc3
  · exact Or.inr (Or.inr (Or.inl rfl))
  · exact Or.inl hdig
  rcases pTimes_chars hpt c hc3 with hdig | rfl | rfl
  · exact Or.inl hdig
  · exact Or.inr (Or.inr (Or.inr rfl))
  · exact Or.inr (Or.inl rfl)

/-! ## Rejection lemmas for `Segments::parse` -/

theorem parse_leading_dash (l : List Char) : parseList ('-' :: l) = none := by
  have hp : pDigits1 ('-' :: l) = none := by
    unfold pDigits1
    rw [if_pos]
    rw [List.takeWhile_cons]
    simp
  unfold parseList segmentsCaptures
  simp only [hp]

theorem parseStart_val {g4 : Option (List Char)} {v : Int}
    (h : parseStart g4 = some v) :
    v = g4.elim 0 (fun m4 => (digitsToNat m4 : Int)) := by
  cases g4 with
  | none =>
    simp only [parseStart] at h
    injection h with h
    simp [← h]
  | some m4 =>
    simp only [parseStart] at h
    simpa using (i64OfDigits_eq h).1

theorem parse_end_lt_start (l : List Char) (caps : Caps) (m : List Char)
    (hcap : segmentsCaptures l = some caps) (hg2 : caps.g2 = some m)
    (hlt : digitsToNat m < digitsToNat caps.g1) : parseList l = none := by
  unfold parseList
  simp only [hcap]
  rcases h1 : i32OfDigits caps.g1 with _ | v1
  · simp [h1]
  simp only [h1]
  rcases h2 : parseEnd0 caps.g2 v1 with _ | v2
  · simp [h2]
  simp only [h2]
  rcases h3 : parseOpen caps.g3 with _ | oid
  · simp [h3]
  simp only [h3]
  rw [hg2] at h2
  simp only [parseEnd0] at h2
  obtain ⟨hv1, hv1n, hv1m⟩ := i32OfDigits_eq h1
  obtain ⟨hv2, hv2n, hv2m⟩ := i32OfDigits_eq h2
  have hlt2 : v2 < v1 := by
    rw [hv1, hv2]
    exact_mod_cast hlt
  have hw : wrap32 (v2 + 1) ≤ v1 := by
    by_cases hb : v2 + 1 < 2147483648
    · rw [wrap32_eq_self (by omega) hb]
      omega
    · have hv2e : v2 + 1 = 2147483648 := by
        simp only [i32max] at hv2m
        omega
      rw [hv2e]
      have hc : wrap32 2147483648 = -2147483648 := by decide
      omega
  rw [if_pos (Or.inr hw)]

theorem parse_end_le_start (l : List Char) (caps : Caps) (m5 : List Char)
    (hcap : segmentsCaptures l = some caps) (hg5 : caps.g5 = some m5)
    (hle : (digitsToNat m5 : Int) ≤ caps.g4.elim 0 (fun m4 => (digitsToNat m4 : Int))) :
    parseList l = none := by
  unfold parseList
  simp only [hcap]
  rcases h1 : i32OfDigits caps.g1 with _ | v1
  · simp [h1]
  simp only [h1]
  rcases h2 : parseEnd0 caps.g2 v1 with _ | e0
  · simp [h2]
  simp only [h2]
  rcases h3 : parseOpen caps.g3 with _ | oid
  · simp [h3]
  simp only [h3]
  by_cases hr : v1 < 0 ∨ wrap32 (e0 + 1) ≤ v1
  · rw [if_pos hr]
  rw [if_neg hr]
  rcases h4 : parseStart caps.g4 with _ | stv
  · simp [h4]
  simp only [h4]
  by_cases hs : stv < 0
  · rw [if_pos hs]
  rw [if_neg hs]
  have het : parseEndTime caps.g5 stv = none := by
    rw [hg5]
    simp only [parseEndTime]
    rcases h5 : i64OfDigits m5 with _ | e
    · rfl
    simp only [h5]
    rw [if_pos]
    rw [(i64OfDigits_eq h5).1, parseStart_val h4]
    exact hle
  simp only [het]

theorem parse_bad_char (l : List Char) (c : Char) (hc : c ∈ l)
    (hbad : ¬ (c.isDigit ∨ c = '-' ∨ c = '@' ∨ c = '.')) : parseList l = none := by
  rcases hcap : segmentsCaptures l with _ | caps
  · unfold parseList
    simp [hcap]
  · exact absurd (captures_chars hcap c hc) hbad

/-- C4: `Segments::parse` errors on the empty input, on a leading minus
sign (a negative id), on END_ID strictly below START_ID, on an end time
at most the effective start time, and on any character that is neither a
digit nor one of the three delimiter characters the grammar allows where
it expects an integer. -/
theorem parse_rejects_malformed :
    Segments.parse "" = none ∧
    (∀ l : List Char, parseList ('-' :: l) = none) ∧
    (∀ (l : List Char) (caps : Caps) (m : List Char),
      segmentsCaptures l = some caps → caps.g2 = some m →
      digitsToNat m < digitsToNat caps.g1 → parseList l = none) ∧
    (∀ (l : List Char) (caps : Caps) (m5 : List Char),
      segmentsCaptures l = some caps → caps.g5 = some m5 →
      (digitsToNat m5 : Int) ≤ caps.g4.elim 0 (fun m4 => (digitsToNat m4 : Int)) →
      parseList l = none) ∧
    (∀ (l : List Char) (c : Char), c ∈ l →
      ¬ (c.isDigit ∨ c = '-' ∨ c = '@' ∨ c = '.') → parseList l = none) :=
  ⟨by decide, parse_leading_dash, parse_end_lt_start, parse_end_le_start, parse_bad_char⟩

theorem parse_rejects_malformed_witness :
    parseList ('-' :: "1".toList) = none ∧
    parseList "5-4".toList = none ∧
    parseList "1.26-26".toList = none ∧
    parseList "1x".toList = none :=
  ⟨parse_rejects_malformed.2.1 "1".toList,
   parse_rejects_malformed.2.2.1 "5-4".toList
     ⟨"5".toList, some "4".toList, none, none, none⟩ "4".toList (by decide) rfl
     (by decide),
   parse_rejects_malformed.2.2.2.1 "1.26-26".toList
     ⟨"1".toList, none, none, some "26".toList, some "26".toList⟩ "26".toList
     (by decide) rfl (by decide),
   parse_rejects_malformed.2.2.2.2 "1x".toList 'x' (by decide) (by decide)⟩

/-- C10: adding one to an END_ID (or a bare START_ID) of `2^31 - 1`
wraps to a negative value in 32-bit signed arithmetic, so the non-empty
range check fails and `Segments::parse` errors, although the grammar
accepts the id itself. -/
theorem parse_max_id_wraps :
    wrap32 (2147483647 + 1) = -2147483648 ∧
    Segments.parse "2147483647" = none ∧
    Segments.parse "1-2147483647" = none ∧
    (∀ (l : List Char) (caps : Caps), segmentsCaptures l = some caps →
      digitsToNat (caps.g2.getD caps.g1) = 2147483647 → parseList l = none) := by
  refine ⟨by decide, by decide, by decide, ?_⟩
  intro l caps hcap hval
  unfold parseList
  simp only [hcap]
  rcases h1 : i32OfDigits caps.g1 with _ | v1
  · simp [h1]
  simp only [h1]
  rcases h2 : parseEnd0 caps.g2 v1 with _ | e0
  · simp [h2]
  simp only [h2]
  rcases h3 : parseOpen caps.g3 with _ | oid
  · simp [h3]
  simp only [h3]
  have he0 : e0 = 2147483647 := by
    cases hg2 : caps.g2 with
    | some m =>
      rw [hg2] at h2 hval
      simp only [parseEnd0] at h2
      simp only [Option.getD_some] at hval
      have hm := (i32OfDigits_eq h2).1
      rw [hval] at hm
      exact_mod_cast hm
    | none =>
      rw [hg2] at h2 hval
      simp only [parseEnd0] at h2
      injection h2 with h2
      simp only [Option.getD_none] at hval
      have hm := (i32OfDigits_eq h1).1
      rw [hval] at hm
      rw [← h2]
      exact_mod_cast hm
  have hneg : wrap32 (e0 + 1) = -2147483648 := by
    rw [he0]
    decide
  have hv1 := (i32OfDigits_eq h1).2.1
  rw [if_pos (Or.inr (by omega))]

theorem parse_max_id_wraps_witness :
    parseList "3-2147483647".toList = none :=
  parse_max_id_wraps.2.2.2 "3-2147483647".toList
    ⟨"3".toList, some "2147483647".toList, none, none, none⟩ (by decide) (by decide)

/-! ## Lemmas about the recording scan -/

theorem stitchStepAppend_ok (s : Segments) (st : ScanState) (r : Row) :
    stitchStepAppend s st r = .ok
      ⟨some r.recording_id, st.cur_off + r.duration_90k,
       st.builder ++
         (if s.start_time ≤ st.cur_off + r.duration_90k ∧ st.cur_off < effectiveEnd s then
           [(r.recording_id, max 0 (s.start_time - st.cur_off),
             min r.duration_90k (effectiveEnd s - st.cur_off))]
         else [])⟩ := by
  unfold stitchStepAppend
  by_cases hc : s.start_time ≤ st.cur_off + r.duration_90k ∧ st.cur_off < effectiveEnd s
  · rw [if_pos hc, if_pos hc]
  · rw [if_neg hc, if_neg hc, List.append_nil]

/-- Every successful callback invocation produces the state the append
logic describes. -/
theorem stitchStep_ok_dest {s : Segments} {sid : Int} {st st2 : ScanState} {r : Row}
    (h : stitchStep s sid st r = .ok st2) :
    st2 = ⟨some r.recording_id, st.cur_off + r.duration_90k,
      st.builder ++
        (if s.start_time ≤ st.cur_off + r.duration_90k ∧ st.cur_off < effectiveEnd s then
          [(r.recording_id, max 0 (s.start_time - st.cur_off),
            min r.duration_90k (effectiveEnd s - st.cur_off))]
        else [])⟩ := by
  unfold stitchStep stitchStepContig at h
  have happ := stitchStepAppend_ok s st r
  rcases ho : s.open_id with _ | o <;> simp only [ho] at h
  · rcases hp : st.prev with _ | pid <;> simp only [hp] at h
    · split at h
      · rw [happ] at h
        injection h with h
        exact h.symm
      · cases h
    · split at h
      · rw [happ] at h
        injection h with h
        exact h.symm
      · cases h
  · split at h
    · cases h
    · rcases hp : st.prev with _ | pid <;> simp only [hp] at h
      · split at h
        · rw [happ] at h
          injection h with h
          exact h.symm
        · cases h
      · split at h
        · rw [happ] at h
          injection h with h
          exact h.symm
        · cases h

/-- With no open-id constraint, one callback invocation is exactly the
contiguity test followed by the append logic. -/
theorem stitchStep_none_eq (s : Segments) (sid : Int) (st : ScanState) (r : Row)
    (hopen : s.open_id = none) :
    stitchStep s sid st r =
      if r.recording_id = nextExpected s st.prev then stitchStepAppend s st r
      else .error (.noSuchRecording sid (nextExpected s st.prev)) := by
  unfold stitchStep stitchStepContig nextExpected
  rw [hopen]
  rcases hp : st.prev with _ | p <;> simp only [hp]

theorem countFrom_length : ∀ (n : Nat) (a : Int), (countFrom a n).length = n
  | 0, _ => rfl
  | n + 1, a => by
    unfold countFrom
    rw [List.length_cons, countFrom_length n (a + 1)]

theorem foldl_countFrom_last :
    ∀ (n : Nat) (a : Int) (p : Option Int),
      (countFrom a n).foldl (fun _ i => some i) p =
        if n = 0 then p else some (a + n - 1)
  | 0, _, _ => rfl
  | n + 1, a, p => by
    unfold countFrom
    rw [List.foldl_cons, foldl_countFrom_last n (a + 1) (some a)]
    rcases Nat.eq_zero_or_pos n with hn | hn
    · subst hn
      norm_num
    · rw [if_neg (by omega), if_neg (by omega)]
      congr 1
      push_cast
      ring

/-- Completeness of the scan: a row list carrying exactly the expected
consecutive ids runs to completion, adding every duration to the
cumulative offset and recording the last id seen. -/
theorem scanRows_complete (s : Segments) (sid : Int) (hopen : s.open_id = none) :
    ∀ (rows : List Row) (st : ScanState),
      rows.map (fun r => r.recording_id) =
        countFrom (nextExpected s st.prev) rows.length →
      ∃ st2, scanRows s sid rows st = .ok st2 ∧
        st2.cur_off = st.cur_off + (rows.map (fun r => r.duration_90k)).sum ∧
        st2.prev = rows.foldl (fun _ r => some r.recording_id) st.prev
  | [], st => by
    intro _
    exact ⟨st, rfl, by simp, rfl⟩
  | r :: rest, st => by
    intro hmap
    simp only [List.map_cons, List.length_cons, countFrom, List.cons_eq_cons] at hmap
    obtain ⟨hid, hrest⟩ := hmap
    have hnext : nextExpected s (some r.recording_id) = r.recording_id + 1 := rfl
    obtain ⟨st3, hrun, hoff, hprev⟩ :=
      scanRows_complete s sid hopen rest
        ⟨some r.recording_id, st.cur_off + r.duration_90k,
         st.builder ++
           (if s.start_time ≤ st.cur_off + r.duration_90k ∧ st.cur_off < effectiveEnd s then
             [(r.recording_id, max 0 (s.start_time - st.cur_off),
               min r.duration_90k (effectiveEnd s - st.cur_off))]
           else [])⟩
        (by rw [hnext, hid]; exact hrest)
    refine ⟨st3, ?_, ?_, ?_⟩
    · unfold scanRows
      rw [stitchStep_none_eq s sid st r hopen, if_pos hid, stitchStepAppend_ok s st r]
      exact hrun
    · rw [hoff]
      simp only [List.map_cons, List.sum_cons]
      ring
    · rw [hprev]
      rfl

/-- Soundness of the scan: a completed scan saw exactly the expected
consecutive ids. -/
theorem scanRows_sound (s : Segments) (sid : Int) (hopen : s.open_id = none) :
    ∀ (rows : List Row) (st st2 : ScanState),
      scanRows s sid rows st = .ok st2 →
      rows.map (fun r => r.recording_id) =
        countFrom (nextExpected s st.prev) rows.length
  | [], _, _, _ => rfl
  | r :: rest, st, st2, h => by
    unfold scanRows at h
    rw [stitchStep_none_eq s sid st r hopen] at h
    by_cases hid : r.recording_id = nextExpected s st.prev
    · rw [if_pos hid, stitchStepAppend_ok s st r] at h
      dsimp only at h
      have hrest := scanRows_sound s sid hopen rest _ st2 h
      simp only [List.map_cons, List.length_cons, countFrom, List.cons_eq_cons]
      refine ⟨hid, ?_⟩
      rw [← hid]
      exact hrest
    · rw [if_neg hid] at h
      dsimp only at h
      cases h

/-- Characterisation of a completed scan started from the initial state:
the ids seen, the final cumulative offset, and the final previous id. -/
theorem scanRows_run_char (s : Segments) (sid : Int) (hopen : s.open_id = none)
    {rows : List Row} {st : ScanState}
    (h : scanRows s sid rows ⟨none, 0, []⟩ = .ok st) :
    rows.map (fun r => r.recording_id) = countFrom s.ids_start rows.length ∧
    st.cur_off = (rows.map (fun r => r.duration_90k)).sum ∧
    st.prev = (if rows.length = 0 then none
               else some (s.ids_start + rows.length - 1)) := by
  have hmap : rows.map (fun r => r.recording_id) =
      countFrom s.ids_start rows.length :=
    scanRows_sound s sid hopen rows _ st h
  obtain ⟨st2, hrun2, hoff2, hprev2⟩ :=
    scanRows_complete s sid hopen rows ⟨none, 0, []⟩ hmap
  rw [h] at hrun2
  injection hrun2 with hst2
  subst hst2
  refine ⟨hmap, by simp [hoff2], ?_⟩
  rw [hprev2]
  dsimp only
  rw [show rows.foldl (fun _ r => some r.recording_id) (none : Option Int) =
        (rows.map (fun r => r.recording_id)).foldl (fun _ i => some i) none from
      (List.foldl_map _ _ _ _).symm]
  rw [hmap, foldl_countFrom_last]

/-- A scan of rows carrying exactly the ids of the selection range runs
to completion with the expected final state. -/
theorem scan_of_idRange (s : Segments) (sid : Int) (hopen : s.open_id = none)
    {rows : List Row} (hlt : s.ids_start < s.ids_end)
    (hmap : rows.map (fun r => r.recording_id) = idRange s.ids_start s.ids_end) :
    ∃ st2, scanRows s sid rows ⟨none, 0, []⟩ = .ok st2 ∧
      st2.cur_off = (rows.map (fun r => r.duration_90k)).sum ∧
      st2.prev = some (s.ids_start + rows.length - 1) ∧
      s.ids_end = s.ids_start + rows.length := by
  have hlen : rows.length = (s.ids_end - s.ids_start).toNat := by
    have hh := congrArg List.length hmap
    rw [List.length_map] at hh
    rw [hh]
    unfold idRange
    exact countFrom_length _ _
  have hmap2 : rows.map (fun r => r.recording_id) =
      countFrom s.ids_start rows.length := by
    rw [hmap]
    unfold idRange
    rw [hlen]
  obtain ⟨st2, hrun2, _, _⟩ := scanRows_complete s sid hopen rows ⟨none, 0, []⟩ hmap2
  obtain ⟨_, hoff, hprev⟩ := scanRows_run_char s sid hopen hrun2
  refine ⟨st2, hrun2, hoff, ?_, by omega⟩
  rw [hprev, if_neg (by omega)]

/-- C2: with no epoch constraint and no end time, the stitcher succeeds
exactly when the scanned rows carry the consecutive ids of the whole
half-open selection range; any first-id mismatch, gap, empty scan or
short tail fails; in particular rows 1,2,4 for the range `[1, 5)` fail
with an error naming id 3. -/
theorem stitcher_contiguity :
    (∀ (s : Segments) (sid : Int) (rows : List Row),
      s.open_id = none → s.end_time = none → s.ids_start < s.ids_end →
      ((stitch s sid rows).isOk = true ↔
        rows.map (fun r => r.recording_id) = idRange s.ids_start s.ids_end)) ∧
    stitch ⟨1, 5, none, 0, none⟩ 7 [⟨1, 0, 10⟩, ⟨2, 0, 10⟩, ⟨4, 0, 10⟩] =
      .error (.noSuchRecording 7 3) := by
  refine ⟨?_, by rfl⟩
  intro s sid rows hopen hend hlt
  constructor
  · intro hok
    unfold stitch at hok
    cases hrun : scanRows s sid rows ⟨none, 0, []⟩ with
    | error e =>
      rw [hrun] at hok
      simp [Except.isOk, Except.toBool] at hok
    | ok st =>
      rw [hrun] at hok
      dsimp only at hok
      obtain ⟨hmap, hoff, hprev⟩ := scanRows_run_char s sid hopen hrun
      rcases hlen : rows.length with _ | n
      · rw [hlen] at hprev
        simp only [if_pos rfl] at hprev
        rw [hprev] at hok
        simp [Except.isOk, Except.toBool] at hok
      · rw [hlen] at hprev
        rw [if_neg (by omega)] at hprev
        rw [hprev] at hok
        dsimp only at hok
        by_cases hcheck : s.ids_end = s.ids_start + ((n : Int) + 1) - 1 + 1
        · unfold idRange
          have htn : (s.ids_end - s.ids_start).toNat = rows.length := by
            rw [hlen]
            omega
          rw [htn, hmap]
        · rw [if_neg (by omega)] at hok
          simp [Except.isOk, Except.toBool] at hok
  · intro hmap
    unfold stitch
    obtain ⟨st2, hrun2, hoff, hprev, hend2⟩ := scan_of_idRange s sid hopen hlt hmap
    rw [hrun2]
    dsimp only
    rw [hprev]
    dsimp only
    rw [if_pos (by omega), hend]
    rfl

theorem stitcher_contiguity_witness :
    (stitch ⟨1, 3, none, 0, none⟩ 0 [⟨1, 0, 10⟩, ⟨2, 0, 5⟩]).isOk = true :=
  (stitcher_contiguity.1 ⟨1, 3, none, 0, none⟩ 0 [⟨1, 0, 10⟩, ⟨2, 0, 5⟩]
    rfl rfl (by decide)).mpr (by decide)

/-- C6: for a selection with an explicit end time, over rows that pass
contiguity validation, the stitcher fails after the scan exactly when
the end time exceeds the total cumulative duration, and the failure is
the end-beyond error naming that end time. -/
theorem stitcher_end_time_check (s : Segments) (sid : Int) (rows : List Row)
    (e : Int) (hopen : s.open_id = none) (hend : s.end_time = some e)
    (hlt : s.ids_start < s.ids_end)
    (hmap : rows.map (fun r => r.recording_id) = idRange s.ids_start s.ids_end) :
    ((stitch s sid rows).isOk = true ↔
      e ≤ (rows.map (fun r => r.duration_90k)).sum) ∧
    (e > (rows.map (fun r => r.duration_90k)).sum →
      stitch s sid rows = .error (.endBeyond e)) := by
  unfold stitch
  obtain ⟨st2, hrun2, hoff, hprev, hend2⟩ := scan_of_idRange s sid hopen hlt hmap
  rw [hrun2]
  dsimp only
  rw [hprev]
  dsimp only
  rw [if_pos (by omega), hend]
  dsimp only
  rw [hoff] at *
  by_cases hgt : e > (rows.map (fun r => r.duration_90k)).sum
  · rw [if_pos (by omega)]
    constructor
    · simp only [Except.isOk]
      constructor
      · intro hfalse
        cases hfalse
      · intro hle
        omega
    · intro _
      rfl
  · rw [if_neg (by omega)]
    constructor
    · simp only [Except.isOk]
      constructor
      · intro _
        omega
      · intro _
        rfl
    · intro hcontra
      omega

theorem stitcher_end_time_check_witness :
    (stitch ⟨1, 2, none, 0, some 5⟩ 0 [⟨1, 0, 10⟩]).isOk = true :=
  (stitcher_end_time_check ⟨1, 2, none, 0, some 5⟩ 0 [⟨1, 0, 10⟩] 5
    rfl rfl (by decide) (by decide)).1.mpr (by decide)

/-- C1 is refuted at the boundary: for the selection parsed from
`1.10-`, the single row with span `[0, 10)` does not intersect the
requested window `[10, unbounded)`, yet the code hands the row to the
builder with the empty clipped range `[10, 10)` instead of skipping it. -/
theorem stitcher_clip_counterexample :
    Segments.parse "1.10-" = some ⟨1, 2, none, 10, none⟩ ∧
    stitch ⟨1, 2, none, 10, none⟩ 0 [⟨1, 0, 10⟩] =
      .ok ⟨some 1, 10, [(1, 10, 10)]⟩ ∧
    ¬ (max 0 (10 : Int) < min (0 + 10) (effectiveEnd ⟨1, 2, none, 10, none⟩)) :=
  ⟨by decide, by rfl, by decide⟩

/-- C1 (amended): a processed row is handed to the builder exactly when
`start_time ≤ cur_off + d` and `cur_off < end_time`; the clipped range
equals the intersection of the row span with the window whenever that
intersection is non-empty, but at the boundary `start_time = cur_off + d`
(or for a zero-duration row) the row is still appended, with an empty
clipped range; the cumulative offset always advances by the full
duration.  The concrete five-row example behaves as the spec states. -/
theorem stitcher_clip_amended :
    (∀ (s : Segments) (sid : Int) (st st2 : ScanState) (r : Row),
      stitchStep s sid st r = .ok st2 →
      st2.cur_off = st.cur_off + r.duration_90k ∧
      st2.builder = st.builder ++
        (if s.start_time ≤ st.cur_off + r.duration_90k ∧
            st.cur_off < effectiveEnd s then
          [(r.recording_id, max 0 (s.start_time - st.cur_off),
            min r.duration_90k (effectiveEnd s - st.cur_off))]
        else []) ∧
      (max st.cur_off s.start_time <
          min (st.cur_off + r.duration_90k) (effectiveEnd s) →
        (s.start_time ≤ st.cur_off + r.duration_90k ∧
          st.cur_off < effectiveEnd s) ∧
        max 0 (s.start_time - st.cur_off) =
          max st.cur_off s.start_time - st.cur_off ∧
        min r.duration_90k (effectiveEnd s - st.cur_off) =
          min (st.cur_off + r.duration_90k) (effectiveEnd s) - st.cur_off)) ∧
    (Segments.parse "1-4.5-25" = some ⟨1, 5, none, 5, some 25⟩ ∧
     stitch ⟨1, 5, none, 5, some 25⟩ 0
       [⟨1, 0, 10⟩, ⟨2, 0, 10⟩, ⟨3, 0, 10⟩, ⟨4, 0, 10⟩] =
       .ok ⟨some 4, 40, [(1, 5, 10), (2, 0, 10), (3, 0, 5)]⟩) := by
  refine ⟨?_, by decide, by rfl⟩
  intro s sid st st2 r h
  have hd := stitchStep_ok_dest h
  subst hd
  refine ⟨rfl, rfl, ?_⟩
  intro hint
  refine ⟨⟨?_, ?_⟩, ?_, ?_⟩
  · have h2 : s.start_time ≤ max st.cur_off s.start_time := le_max_right _ _
    have h3 : min (st.cur_off + r.duration_90k) (effectiveEnd s) ≤
        st.cur_off + r.duration_90k := min_le_left _ _
    omega
  · have h2 : st.cur_off ≤ max st.cur_off s.start_time := le_max_left _ _
    have h3 : min (st.cur_off + r.duration_90k) (effectiveEnd s) ≤
        effectiveEnd s := min_le_right _ _
    omega
  · rw [← max_sub_sub_right, sub_self]
  · rw [← min_sub_sub_right, add_sub_cancel_left]

theorem stitcher_clip_amended_witness :
    (⟨some 1, 10, [(1, 5, 10)]⟩ : ScanState).cur_off =
      (⟨none, 0, []⟩ : ScanState).cur_off + (⟨1, 0, 10⟩ : Row).duration_90k :=
  (stitcher_clip_amended.1 ⟨1, 2, none, 5, some 25⟩ 0 ⟨none, 0, []⟩
    ⟨some 1, 10, [(1, 5, 10)]⟩ ⟨1, 0, 10⟩ (by rfl)).1

/-! ## The capacity estimate -/

theorem wrap64_eq_self {x : Int} (h1 : -9223372036854775808 ≤ x)
    (h2 : x < 9223372036854775808) : wrap64 x = x := by
  unfold wrap64
  omega

theorem wrap64_eq_sub {x : Int} (h1 : 9223372036854775807 < x)
    (h2 : x < 27670116110564327424) :
    wrap64 x = x - 18446744073709551616 := by
  unfold wrap64
  omega

theorem tdiv_nonneg_eq (x : Int) (hx : 0 ≤ x) :
    x.tdiv (5400000 : Int) = ((x.toNat / 5400000 : Nat) : Int) := by
  obtain ⟨n, rfl⟩ := Int.eq_ofNat_of_zero_le hx
  rfl

theorem tdiv_neg_eq (x : Int) (hx : x ≤ 0) :
    x.tdiv (5400000 : Int) = -(((-x).toNat / 5400000 : Nat) : Int) := by
  obtain ⟨n, hn⟩ := Int.eq_ofNat_of_zero_le (neg_nonneg.mpr hx)
  rw [show x = -(n : Int) by omega]
  rw [Int.neg_tdiv]
  rw [show ((n : Int)).tdiv (5400000 : Int) = ((n / 5400000 : Nat) : Int) from rfl]
  omega

/-- C7: for every parsed selection, the estimate reserved in the builder
equals the id count of the half-open range when no end time is present,
and `min(id count, ceil((end_time - start_time) / nominal duration) + 2)`
when one is present, where `q` is the exact integer ceiling of the
quotient. -/
theorem est_segments_spec (input : String) (s : Segments)
    (h : Segments.parse input = some s) :
    (s.end_time = none →
      est_segments s = (s.ids_end - s.ids_start).toNat) ∧
    (∀ e, s.end_time = some e → ∃ q : Int,
      DESIRED_RECORDING_DURATION * (q - 1) < e - s.start_time ∧
      e - s.start_time ≤ DESIRED_RECORDING_DURATION * q ∧
      est_segments s = min (s.ids_end - s.ids_start).toNat (q + 2).toNat) := by
  have hp : parseList input.toList = some s := h
  obtain ⟨h0, h1, h2, h3, h4, h5⟩ := parse_inv hp
  simp only [i32max] at h2
  simp only [i64max] at h4
  have hd : wrap32 (s.ids_end - s.ids_start) = s.ids_end - s.ids_start :=
    wrap32_eq_self (by omega) (by omega)
  have hest0 : usizeOfInt (s.ids_end - s.ids_start) =
      (s.ids_end - s.ids_start).toNat := by
    unfold usizeOfInt
    rw [Int.emod_eq_of_lt (by omega) (by omega)]
  constructor
  · intro hnone
    unfold est_segments
    rw [hnone]
    dsimp only
    rw [hd, hest0]
  · intro e he
    obtain ⟨hse, hei⟩ := h5 e he
    simp only [i64max] at hei
    unfold est_segments
    rw [he]
    dsimp only
    rw [hd, hest0]
    simp only [DESIRED_RECORDING_DURATION]
    by_cases hov : e - s.start_time + 5400000 - 1 ≤ 9223372036854775807
    · rw [wrap64_eq_self (by omega) (by omega)]
      rw [tdiv_nonneg_eq _ (by omega)]
      refine ⟨((e - s.start_time + 5400000 - 1).toNat / 5400000 : Nat), ?_, ?_, ?_⟩
      · omega
      · omega
      · unfold usizeOfInt
        congr 1
        omega
    · rw [wrap64_eq_sub (by omega) (by omega)]
      rw [tdiv_neg_eq _ (by omega)]
      refine ⟨((e - s.start_time + 5399999).toNat / 5400000 : Nat), ?_, ?_, ?_⟩
      · omega
      · omega
      · unfold usizeOfInt
        omega

theorem est_segments_spec_witness :
    ∃ q : Int,
      DESIRED_RECORDING_DURATION * (q - 1) <
        42 - (Segments.mk 1 6 none 26 (some 42)).start_time ∧
      42 - (Segments.mk 1 6 none 26 (some 42)).start_time ≤
        DESIRED_RECORDING_DURATION * q ∧
      est_segments (Segments.mk 1 6 none 26 (some 42)) =
        min ((Segments.mk 1 6 none 26 (some 42)).ids_end -
          (Segments.mk 1 6 none 26 (some 42)).ids_start).toNat (q + 2).toNat :=
  (est_segments_spec "1-5.26-42" (Segments.mk 1 6 none 26 (some 42))
    (by decide)).2 42 rfl

/-! ## The path router -/

theorem dehex_none_of_bad :
    ∀ (l : List Char), (∃ c ∈ l, hexDigitVal c = none) → dehex l = none
  | [], h => by simp at h
  | [_], _ => rfl
  | c1 :: c2 :: rest, h => by
    obtain ⟨c, hc, hcbad⟩ := h
    unfold dehex
    rcases h1 : hexDigitVal c1 with _ | v1
    · simp [h1]
    rcases h2 : hexDigitVal c2 with _ | v2
    · simp [h1, h2]
    rcases h3 : dehex rest with _ | bs
    · simp [h1, h2, h3]
    exfalso
    rcases List.mem_cons.mp hc with rfl | hc
    · rw [h1] at hcbad
      cases hcbad
    rcases List.mem_cons.mp hc with rfl | hc
    · rw [h2] at hcbad
      cases hcbad
    rw [dehex_none_of_bad rest ⟨c, hc, hcbad⟩] at h3
    cases h3

theorem dehex_ok_of_hex :
    ∀ (l : List Char), (∀ c ∈ l, (hexDigitVal c).isSome) → l.length % 2 = 0 →
      ∃ bs, dehex l = some bs ∧ bs.length = l.length / 2
  | [], _, _ => ⟨[], rfl, rfl⟩
  | [_], _, hlen => by simp at hlen
  | c1 :: c2 :: rest, hhex, hlen => by
    obtain ⟨v1, hv1⟩ := Option.isSome_iff_exists.mp (hhex c1 (by simp))
    obtain ⟨v2, hv2⟩ := Option.isSome_iff_exists.mp (hhex c2 (by simp))
    obtain ⟨bs, hbs, hblen⟩ := dehex_ok_of_hex rest
      (fun c hc => hhex c (by simp [hc]))
      (by simp only [List.length_cons] at hlen ⊢; omega)
    refine ⟨(v1 * 16 + v2) :: bs, ?_, ?_⟩
    · unfold dehex
      simp [hv1, hv2, hbs]
    · simp only [List.length_cons, hblen]
      omega

/-- The router on any path under the init prefix, with the checks that
depend on the remainder of the path left unevaluated. -/
theorem decode_path_init (α : Type) (up : List Char → Option α) (t : List Char) :
    decode_path up ("/api/init/".toList ++ t) =
      (if ("/init/".toList ++ t).length ≠ 50 ∨
          ¬ (".mp4".toList.isSuffixOf ("/init/".toList ++ t)) then
        RoutePath.NotFound
      else
        match dehex ((("/init/".toList ++ t)).drop 6 |>.take 40) with
        | some sha1 => RoutePath.InitSegment sha1
        | none => RoutePath.NotFound) := by
  have h1 : ("/api/".toList.isPrefixOf ("/api/init/".toList ++ t)) = true := rfl
  have h2 : ("/init/".toList.isPrefixOf (("/api/init/".toList ++ t).drop 4)) = true := by
    rw [show ("/api/init/".toList ++ t).drop 4 = "/init/".toList ++ t from rfl]
    rw [List.isPrefixOf_iff_prefix]
    exact List.prefix_append _ _
  unfold decode_path
  rw [if_neg (not_not_intro h1)]
  dsimp only
  rw [if_neg (show ¬ (("/api/init/".toList ++ t).drop 4 = "/".toList) from by
    show ¬ ('/' :: 'i' :: 'n' :: 'i' :: 't' :: '/' :: t = "/".toList)
    simp)]
  rw [if_pos h2]
  rw [show List.drop 4 ("/api/init/".toList ++ t) = "/init/".toList ++ t from rfl]

/-- The router on any path under the cameras prefix, reduced past the
prefix tests. -/
theorem decode_path_cameras (α : Type) (up : List Char → Option α) (t : List Char) :
    decode_path up ("/api/cameras/".toList ++ t) =
      (match findSlash t with
       | none => RoutePath.NotFound
       | some slash =>
         match up (t.take slash) with
         | none => RoutePath.NotFound
         | some u =>
           if t.drop (slash + 1) = [] then RoutePath.Camera u
           else
             match findSlash (t.drop (slash + 1)) with
             | none => RoutePath.NotFound
             | some slash2 =>
               match StreamType.parse ((t.drop (slash + 1)).take slash2) with
               | none => RoutePath.NotFound
               | some ty =>
                 if (t.drop (slash + 1)).drop slash2 = "/recordings".toList then
                   RoutePath.StreamRecordings u ty
                 else if (t.drop (slash + 1)).drop slash2 = "/view.mp4".toList then
                   RoutePath.StreamViewMp4 u ty
                 else if (t.drop (slash + 1)).drop slash2 = "/view.m4s".toList then
                   RoutePath.StreamViewMp4Segment u ty
                 else RoutePath.NotFound) := by
  have h1 : ("/api/".toList.isPrefixOf ("/api/cameras/".toList ++ t)) = true := rfl
  have h2 : ("/init/".toList.isPrefixOf (("/api/cameras/".toList ++ t).drop 4)) =
      false := rfl
  have h3 : ("/cameras/".toList.isPrefixOf (("/api/cameras/".toList ++ t).drop 4)) =
      true := by
    rw [show ("/api/cameras/".toList ++ t).drop 4 = "/cameras/".toList ++ t from rfl]
    rw [List.isPrefixOf_iff_prefix]
    exact List.prefix_append _ _
  unfold decode_path
  rw [if_neg (not_not_intro h1)]
  dsimp only
  rw [if_neg (show ¬ (("/api/cameras/".toList ++ t).drop 4 = "/".toList) from by
    show ¬ ('/' :: 'c' :: 'a' :: 'm' :: 'e' :: 'r' :: 'a' :: 's' :: '/' :: t =
      "/".toList)
    simp)]
  rw [if_neg (show ¬ ("/init/".toList.isPrefixOf
      (("/api/cameras/".toList ++ t).drop 4) = true) from by simp [h2])]
  rw [if_neg (not_not_intro h3)]
  rw [show List.drop 9 (List.drop 4 ("/api/cameras/".toList ++ t)) = t from rfl]

theorem findSlash_append :
    ∀ (id rest : List Char), '/' ∉ id →
      findSlash (id ++ ('/' :: rest)) = some id.length
  | [], rest, _ => by simp [findSlash]
  | c :: id2, rest, h => by
    rw [List.cons_append]
    unfold findSlash
    rw [if_neg (show ¬ (c = '/') from
      fun hc => h (by rw [← hc] at *; exact List.mem_cons_self c id2))]
    rw [findSlash_append id2 rest (fun hm => h (List.mem_cons_of_mem c hm))]
    simp

/-- C8: the router is a total classification: any path outside the API
prefix is static; an init path of exactly 40 hexadecimal characters
followed by `.mp4` yields the decoded 20-byte hash; any other init path,
by length or by a non-hexadecimal character in the hash position, is not
found. -/
theorem decode_path_total_classification :
    (∀ (α : Type) (up : List Char → Option α) (p : List Char),
      ¬ ("/api/".toList.isPrefixOf p) → decode_path up p = RoutePath.Static) ∧
    (∀ (α : Type) (up : List Char → Option α) (h : List Char),
      h.length = 40 → (∀ c ∈ h, (hexDigitVal c).isSome) →
      ∃ bs, dehex h = some bs ∧ bs.length = 20 ∧
        decode_path up ("/api/init/".toList ++ h ++ ".mp4".toList) =
          RoutePath.InitSegment bs) ∧
    (∀ (α : Type) (up : List Char → Option α) (p : List Char),
      "/api/init/".toList.isPrefixOf p →
      (p.length ≠ 54 ∨ ∃ c ∈ (p.drop 10).take 40, hexDigitVal c = none) →
      decode_path up p = RoutePath.NotFound) := by
  refine ⟨?_, ?_, ?_⟩
  · intro α up p hnp
    unfold decode_path
    rw [if_pos hnp]
  · intro α up h hlen hhex
    obtain ⟨bs, hbs, hblen⟩ := dehex_ok_of_hex h hhex (by rw [hlen])
    refine ⟨bs, hbs, by rw [hblen, hlen], ?_⟩
    rw [List.append_assoc, decode_path_init]
    have hlen2 : ("/init/".toList ++ (h ++ ".mp4".toList)).length = 50 := by
      simp [List.length_append, hlen]
    have hsuf : (".mp4".toList.isSuffixOf
        ("/init/".toList ++ (h ++ ".mp4".toList))) = true := by
      rw [List.isSuffixOf_iff_suffix]
      rw [show "/init/".toList ++ (h ++ ".mp4".toList) =
          ("/init/".toList ++ h) ++ ".mp4".toList from by rw [List.append_assoc]]
      exact List.suffix_append _ _
    rw [if_neg (by push_neg; exact ⟨hlen2, hsuf⟩)]
    have hdrop : ("/init/".toList ++ (h ++ ".mp4".toList)).drop 6 =
        h ++ ".mp4".toList := List.drop_left' rfl
    rw [hdrop, List.take_left' hlen, hbs]
  · intro α up p hpre hbad
    rw [List.isPrefixOf_iff_prefix] at hpre
    obtain ⟨t, rfl⟩ := hpre
    rw [decode_path_init]
    by_cases hlen : ("/init/".toList ++ t).length = 50
    · have ht44 : t.length = 44 := by
        rw [List.length_append, show ("/init/".toList).length = 6 from rfl] at hlen
        omega
      rcases hbad with hbad | ⟨c, hc, hcbad⟩
      · exfalso
        apply hbad
        rw [List.length_append, show ("/api/init/".toList).length = 10 from rfl, ht44]
      · by_cases hsuf : (".mp4".toList.isSuffixOf ("/init/".toList ++ t)) = true
        · rw [if_neg (by push_neg; exact ⟨hlen, hsuf⟩)]
          have hdrop10 : ("/api/init/".toList ++ t).drop 10 = t :=
            List.drop_left' rfl
          rw [hdrop10] at hc
          have hdrop6 : ("/init/".toList ++ t).drop 6 = t := List.drop_left' rfl
          rw [hdrop6]
          rw [dehex_none_of_bad (t.take 40) ⟨c, hc, hcbad⟩]
        · rw [if_pos (Or.inr (by simpa using hsuf))]
    · rw [if_pos (Or.inl hlen)]

theorem decode_path_total_classification_witness :
    (decode_path (fun _ => some ()) "nostatic".toList = RoutePath.Static) ∧
    (∃ bs, dehex (List.replicate 40 'a') = some bs ∧ bs.length = 20 ∧
      decode_path (fun _ => some ())
        ("/api/init/".toList ++ List.replicate 40 'a' ++ ".mp4".toList) =
        RoutePath.InitSegment bs) ∧
    (decode_path (fun _ => some ()) "/api/init/nope".toList = RoutePath.NotFound) :=
  ⟨decode_path_total_classification.1 Unit (fun _ => some ()) _ (by decide),
   decode_path_total_classification.2.1 Unit (fun _ => some ()) _ (by decide)
     (by decide),
   decode_path_total_classification.2.2 Unit (fun _ => some ()) _ (by decide)
     (by decide)⟩

/-- C9: on a path of the camera form, the id component reaches a camera
or stream route only when the identifier parser accepts it, and a parser
failure classifies as not found.  The parser stands for the external
`Uuid::parse_str` collaborator. -/
theorem decode_path_camera_id (α : Type) (up : List Char → Option α)
    (id rest : List Char) (hid : '/' ∉ id) :
    (up id = none →
      decode_path up ("/api/cameras/".toList ++ id ++ ('/' :: rest)) =
        RoutePath.NotFound) ∧
    ((decode_path up
        ("/api/cameras/".toList ++ id ++ ('/' :: rest))).isCameraRoute = true →
      (up id).isSome = true) := by
  have hred : ∀ u, up id = u →
      decode_path up ("/api/cameras/".toList ++ id ++ ('/' :: rest)) =
        RoutePath.NotFound ∨
      (up id).isSome = true := by
    intro u hu
    cases u with
    | none =>
      left
      rw [List.append_assoc, decode_path_cameras]
      rw [findSlash_append id rest hid]
      dsimp only
      rw [List.take_left' rfl, hu]
    | some v =>
      right
      rw [hu]
      rfl
  constructor
  · intro hu
    rcases hred none hu with hr | hsome
    · exact hr
    · rw [hu] at hsome
      cases hsome
  · intro hroute
    rcases hu : up id with _ | v
    · rcases hred none hu with hr | hsome
      · rw [hr] at hroute
        cases hroute
      · rw [hu] at hsome
        exact hsome
    · rfl

theorem decode_path_camera_id_witness :
    decode_path (fun l => if l = "x".toList then some 3 else none)
      ("/api/cameras/".toList ++ "y".toList ++ ('/' :: [])) =
      RoutePath.NotFound :=
  (decode_path_camera_id Nat (fun l => if l = "x".toList then some 3 else none)
    "y".toList [] (by decide)).1 (by decide)

end MoonfireWeb
